import Mathlib

/-
Verification of the ELDER editing-memory and routing core
(peft_egg/src/peft/tuners/elder.py).

The cluster store (`VecDB`), the GRACE memory layer (`GraceLinear`), the
block-dynamic rank addressing (`dynamic`), the low-rank adapter layer
(`Linear`) and the router (`Gate`) are shallowly embedded below.  Activation
keys are modelled as one-dimensional vectors (rationals), so the Euclidean
distance of the source (`torch.cdist` with `p = 2`) is the absolute
difference; all the control flow and radius algebra of the source is
dimension-independent.  Counters and radii are exact rationals.  Fallible
Python operations (attribute lookup, the `try/except` in `search_cluster`)
are modelled with `Option`/`Except`.
-/

namespace Elder

/-- The sentinel edit value, `NO_LORA = -100` in the source. -/
def NO_LORA : ℤ := -100

/-- One-dimensional Euclidean distance: models `VecDB.euc`
(`torch.cdist(·, ·, p=2)`) for scalar keys. -/
def euc (q k : ℚ) : ℚ := |q - k|

/-- First-element-seeded minimum of a list (models `tensor.min(0)` values). -/
def listMin : List ℚ → ℚ
  | [] => 0
  | x :: xs => xs.foldl min x

/-- First-element-seeded maximum of a list (models `tensor.max(0)` values). -/
def listMax : List ℚ → ℚ
  | [] => 0
  | x :: xs => xs.foldl max x

/-- Index of the first occurrence of the minimum of a list (models
`tensor.min(0)` indices, which are the first minimal position). -/
def argminFirst (l : List ℚ) : ℕ := l.findIdx (fun x => x == listMin l)

/-- A memorized point: models class `mem_point` (fields `key`, `value`). -/
structure MemPoint where
  key : ℚ
  value : ℤ
deriving DecidableEq

/-- One cluster row of the store: models the dict
`{'cluster_center': _, 'radius': _, 'key_label': _, 'points': _}`
built in `VecDB.add_cluster`. -/
structure Cluster where
  cluster_center : ℚ
  radius : ℚ
  key_label : List ℤ
  points : List MemPoint
deriving DecidableEq

/-- Default cluster used with `List.getD` (never reached at in-range indices). -/
def dCl : Cluster := ⟨0, 0, [], []⟩

/-- The cluster store: models class `VecDB` (fields `table`, `forget_num`,
`conflict_num`, `forget_keys`) together with the one configuration entry it
reads, `config['init_radius']`. -/
structure VecDB where
  init_radius : ℚ
  table : List Cluster
  forget_num : ℕ
  conflict_num : ℕ
  forget_keys : List ℚ
deriving DecidableEq

/-- Models `VecDB.add_cluster`: append a fresh cluster centred at the new key,
with the configured initial radius and a single seed point. -/
def VecDB.add_cluster (db : VecDB) (new_key : ℚ) (new_value : ℤ)
    (new_edit_label : List ℤ) : VecDB :=
  { db with table := db.table ++ [⟨new_key, db.init_radius, new_edit_label,
      [⟨new_key, new_value⟩]⟩] }

/-- The cluster produced by `VecDB.update_cluster` at a hit index: the new
point is appended, the centre is recomputed as the arithmetic mean of all
member keys and the radius as the maximum of the farthest member distance
and `init_radius`. -/
def updatedCluster (c : Cluster) (new_key : ℚ) (new_value : ℤ)
    (init_radius : ℚ) : Cluster :=
  let points := c.points ++ [⟨new_key, new_value⟩]
  let key_list := points.map MemPoint.key
  let new_cluster_center := key_list.sum / (key_list.length : ℚ)
  let dists := key_list.map (fun k => euc k new_cluster_center)
  { c with
    points := points
    cluster_center := new_cluster_center
    radius := max (listMax dists) init_radius }

/-- Models `VecDB.update_cluster`.  An out-of-range index raises `IndexError`
in the source; the claims below only use in-range indices, where this
embedding replaces the indexed row by `updatedCluster`. -/
def VecDB.update_cluster (db : VecDB) (index : ℕ) (new_key : ℚ)
    (new_value : ℤ) : VecDB :=
  match db.table[index]? with
  | none => db
  | some c => { db with
      table := db.table.set index (updatedCluster c new_key new_value db.init_radius) }

/-- Models the `masked_fill(label == -100, 0)` step of `VecDB.label_match`. -/
def maskIgnore (l : List ℤ) : List ℤ := l.map (fun x => if x = -100 then 0 else x)

/-- Models `VecDB.label_match`: compare the masked sums of the two label
sequences. -/
def VecDB.label_match (edit_label key_label : List ℤ) : Bool :=
  (maskIgnore edit_label).sum == (maskIgnore key_label).sum

/-- Set the radius of the cluster at index `i` (in-place field assignment
`table[i]['radius'] = r` of the source; out of range raises there and is a
no-op here, unreached by the claims). -/
def setRadius (table : List Cluster) (i : ℕ) (r : ℚ) : List Cluster :=
  match table[i]? with
  | none => table
  | some c => table.set i { c with radius := r }

/-- Models `VecDB.split_cluster_radii_in_half`: the conflicting cluster at
`nearest_cluster` gets radius `smallest_distance/2 - 1e-5`, the most recently
appended cluster (`table[-1]`) gets `smallest_distance/2 + 1e-5`; the
original cluster's points are then re-filtered against its unchanged centre
and its new radius, excluded keys go to `forget_keys`, a sentinel
`(center, NO_LORA)` point is inserted if nothing remains, and
`forget_num`/`conflict_num` advance. -/
def VecDB.split_cluster_radii_in_half (db : VecDB) (nearest_cluster : ℕ)
    (smallest_distance : ℚ) : VecDB :=
  let t2 := setRadius (setRadius db.table nearest_cluster
      (smallest_distance / 2 - 1 / 100000))
    (db.table.length - 1) (smallest_distance / 2 + 1 / 100000)
  match t2[nearest_cluster]? with
  | none => { db with table := t2 }
  | some c =>
    let kept := c.points.filter
      (fun p => decide (euc p.key c.cluster_center ≤ c.radius))
    let forgotten := c.points.filter
      (fun p => !decide (euc p.key c.cluster_center ≤ c.radius))
    let kept2 := if kept.isEmpty then [⟨c.cluster_center, NO_LORA⟩] else kept
    { db with
      table := t2.set nearest_cluster { c with points := kept2 },
      forget_keys := db.forget_keys ++ forgotten.map MemPoint.key,
      forget_num := db.forget_num + (c.points.length - kept2.length),
      conflict_num := db.conflict_num + 1 }

/-- Models `VecDB.search_database`: per query, the distance to every cluster
centre, with the minimum value and the first minimizing cluster index.
The source raises on an empty store (callers check `len(VecDB) != 0`). -/
def VecDB.search_database (db : VecDB) (batch_query : List ℚ) :
    List ℚ × List ℕ :=
  (batch_query.map (fun q => listMin (db.table.map (fun c => euc q c.cluster_center))),
   batch_query.map (fun q => argminFirst (db.table.map (fun c => euc q c.cluster_center))))

/-- The body of the `try` block of `VecDB.search_cluster` for one query:
`none` models a raised-and-caught exception (cluster index out of range, or
`torch.stack` over an empty point list), after which the source appends
nothing for this query. -/
def searchClusterEntry (db : VecDB) (query smallest_distance : ℚ)
    (nearest_cluster : ℕ) : Option ℤ :=
  match db.table[nearest_cluster]? with
  | none => none
  | some c =>
    if smallest_distance > c.radius then some NO_LORA
    else
      match c.points with
      | [] => none
      | _ :: _ =>
        let dists := c.points.map (fun x => euc x.key query)
        some ((c.points.getD (argminFirst dists) ⟨0, NO_LORA⟩).value)

/-- Models `VecDB.search_cluster`: the per-query loop with its
`try/except print/continue`; a failing iteration is skipped. -/
def VecDB.search_cluster (db : VecDB) (batch_query : List ℚ)
    (smallest_distance_list : List ℚ) (nearest_cluster_list : List ℕ) : List ℤ :=
  (batch_query.zip (smallest_distance_list.zip nearest_cluster_list)).filterMap
    (fun x => searchClusterEntry db x.1 x.2.1 x.2.2)

/-- The mutable state of the GRACE memory layer that the claims touch:
models the `GraceLayer` fields `VecDB`, `block_id`, `edit_label`,
`batch_iter` and `lora_block_mapping`. -/
structure GraceState where
  db : VecDB
  block_id : ℤ
  edit_label : List (List ℤ)
  batch_iter : Option ℤ
  lora_block_mapping : List ℤ
deriving DecidableEq

/-- The per-example body of the vector-database update loop in
`GraceLinear.forward` (first micro-batch, non-empty store): create a new
cluster if the distance clearly exceeds the matched radius plus
`init_radius`; otherwise reinforce the matched cluster when the labels
match; otherwise create a new cluster and force a radius split on the
matched one.  The row is re-read from the current store, as in the source. -/
def graceUpdateStep (lbl : List ℤ) (bid : ℤ) (db : VecDB) (q d : ℚ)
    (j : ℕ) : VecDB :=
  match db.table[j]? with
  | none => db
  | some row =>
    if d > row.radius + db.init_radius then
      db.add_cluster q bid lbl
    else if VecDB.label_match lbl row.key_label then
      db.update_cluster j q bid
    else
      (db.add_cluster q bid lbl).split_cluster_radii_in_half j d

/-- Models `GraceLayer.init_key_value`: seed one cluster per example of the
batch, all valued with the current block id, then advance the block id. -/
def initKeyValue (st : GraceState) (batch_query : List ℚ) :
    List ℤ × GraceState :=
  let db2 := (batch_query.enum).foldl
    (fun db iq => db.add_cluster iq.2 st.block_id (st.edit_label.getD iq.1 []))
    st.db
  (batch_query.map (fun _ => st.block_id),
   { st with db := db2, block_id := st.block_id + 1 })

/-- The block-mapping-producing part of `GraceLinear.forward` (the base
linear output is passed through unchanged and not modelled): search when the
store is non-empty; at inference publish the lookup result; in training
seed the store when empty, run the update loop on the first micro-batch, and
otherwise republish the stored mapping.  The returned list is the published
`LORA_BLOCK_MAPPING`. -/
def graceForwardMapping (training : Bool) (st : GraceState)
    (batch_query : List ℚ) : List ℤ × GraceState :=
  if st.db.table.isEmpty then
    if training = false then
      let m := List.replicate batch_query.length NO_LORA
      (m, { st with lora_block_mapping := m })
    else
      let r := initKeyValue st batch_query
      (r.1, { r.2 with lora_block_mapping := r.1 })
  else
    let sd := (st.db.search_database batch_query).1
    let nc := (st.db.search_database batch_query).2
    let m0 := st.db.search_cluster batch_query sd nc
    if training = false then
      (m0, { st with lora_block_mapping := m0 })
    else if st.batch_iter = some 0 then
      let m := List.replicate batch_query.length st.block_id
      let db2 := ((batch_query.zip (sd.zip nc)).enum).foldl
        (fun db x => graceUpdateStep (st.edit_label.getD x.1 []) st.block_id
          db x.2.1 x.2.2.1 x.2.2.2)
        st.db
      (m, { st with
            db := db2
            block_id := st.block_id + 1
            lora_block_mapping := m })
    else
      (st.lora_block_mapping, st)

/- ## Block-dynamic rank addressing (`class dynamic`) and the blockwise
adapter layer (`class Linear`). -/

/-- Models `dynamic.block_rank_mapping`: the contiguous rank range of a
block. -/
def block_rank_mapping (num_rank_per_block block_id : ℕ) : ℕ × ℕ :=
  (block_id * num_rank_per_block, block_id * num_rank_per_block + num_rank_per_block)

/-- The per-example body of `dynamic.forward`: the gathered rank-block of
`inputs` for one block id — an all-zero `(num_rank_per_block, w)` block when
the id is `NO_LORA` — rescaled by `dyn_scale`, which stands for the source's
`math.sqrt(maximum_rank / num_rank_per_block)` (irrational, hence kept as a
parameter). -/
def dynamic_forward_block (R w nbr : ℕ) (dyn_scale : ℚ)
    (inputs : Matrix (Fin R) (Fin w) ℚ) (block_id : ℤ) :
    Matrix (Fin nbr) (Fin w) ℚ :=
  dyn_scale • (if block_id = NO_LORA then 0
    else Matrix.of fun (i : Fin nbr) (j : Fin w) =>
      if h : (block_rank_mapping nbr block_id.toNat).1 + (i : ℕ) < R then
        inputs ⟨(block_rank_mapping nbr block_id.toNat).1 + (i : ℕ), h⟩ j
      else 0)

/-- Models a `torch.nn.Parameter` held in an `nn.ParameterDict`: a bare
tensor.  Unlike an `nn.Linear` module it has no `weight` sub-attribute, so
reading `.weight` on it raises `AttributeError` and can produce no value
(return type `Empty`). -/
structure NNParameter (m n : ℕ) where
  data : Matrix (Fin m) (Fin n) ℚ

/-- Python attribute lookup `p.weight` on an `nn.Parameter`:
always `AttributeError`. -/
inductive PyError where
  | attributeError
deriving DecidableEq

/-- The `.weight` attribute access performed by `Linear.merge`/`unmerge` on
the `ParameterDict` entries `lora_A`/`lora_B`; it raises. -/
def NNParameter.getattr_weight {m n : ℕ} (_ : NNParameter m n) :
    Except PyError Empty :=
  .error .attributeError

/-- The adapter state of `class Linear(nn.Linear, LoraLayer)` for the single
active adapter: the frozen base weight and bias, the rank-`R` factor pair
stored as bare parameters of shapes `(in_features, R)` and
`(R, out_features)` (as `LoraLayer.update_layer` creates them), the
`lora_alpha / r` scaling, the block size and dynamic rescale of the two
`dynamic` gathers, the adapter-present flag (`active_adapter in
lora_A.keys()`, true iff `r > 0` was configured) and the merged flag.
`fan_in_fan_out` is `False` (the default) and dropout is the identity
(`lora_dropout == 0`). -/
structure LoraLinear (nin nout R : ℕ) where
  weight : Matrix (Fin nout) (Fin nin) ℚ
  bias : Fin nout → ℚ
  lora_A : NNParameter nin R
  lora_B : NNParameter R nout
  scaling : ℚ
  num_rank_per_block : ℕ
  dyn_scale : ℚ
  has_adapter : Bool
  merged : Bool

/-- Models `Linear.merge`.  The result pairs the new state with a flag that
is true iff the "Already merged" warning was emitted.  With `r > 0` the
source evaluates `self.lora_B[...].weight @ self.lora_A[...].weight`, whose
first attribute access raises (`lora_B` stores an `nn.Parameter`, not a
module), so the weight update is unreachable. -/
def LoraLinear.merge {nin nout R : ℕ} (s : LoraLinear nin nout R) :
    Except PyError (LoraLinear nin nout R × Bool) :=
  if s.has_adapter = false then .ok (s, false)
  else if s.merged then .ok (s, true)
  else if 0 < R then
    match s.lora_B.getattr_weight with
    | .error e => .error e
    | .ok bw => bw.elim
  else .ok (s, false)

/-- Models `Linear.unmerge`, symmetric to `LoraLinear.merge`; the flag is
true iff the "Already unmerged" warning was emitted. -/
def LoraLinear.unmerge {nin nout R : ℕ} (s : LoraLinear nin nout R) :
    Except PyError (LoraLinear nin nout R × Bool) :=
  if s.has_adapter = false then .ok (s, false)
  else if s.merged = false then .ok (s, true)
  else if 0 < R then
    match s.lora_B.getattr_weight with
    | .error e => .error e
    | .ok bw => bw.elim
  else .ok (s, false)

/-- The base output `F.linear(x, weight, bias)` of the adapter layer for one
example (`x` is that example's `(seq_len, in_features)` slice). -/
def linearBase {nin nout L : ℕ} (s : LoraLinear nin nout R)
    (x : Matrix (Fin L) (Fin nin) ℚ) : Matrix (Fin L) (Fin nout) ℚ :=
  x * s.weight.transpose + Matrix.of fun _ j => s.bias j

/-- The per-example adapter path of `Linear.forward` in the `r > 0`,
unmerged state: the blockwise gathers
`nd_lora_A(lora_A.T).mT` and `nd_lora_B(lora_B)` for this example's
assigned block, contracted with the input and rescaled by `scaling`. -/
def loraDelta {nin nout R L : ℕ} (s : LoraLinear nin nout R)
    (x : Matrix (Fin L) (Fin nin) ℚ) (block_id : ℤ) :
    Matrix (Fin L) (Fin nout) ℚ :=
  s.scaling •
    (x * (dynamic_forward_block R nin s.num_rank_per_block s.dyn_scale
            s.lora_A.data.transpose block_id).transpose
       * dynamic_forward_block R nout s.num_rank_per_block s.dyn_scale
            s.lora_B.data block_id)

/-- The per-example output of `Linear.forward` (adapters enabled, `r > 0`,
unmerged): base output plus the blockwise low-rank correction. -/
def linearForwardExample {nin nout R L : ℕ} (s : LoraLinear nin nout R)
    (x : Matrix (Fin L) (Fin nin) ℚ) (block_id : ℤ) :
    Matrix (Fin L) (Fin nout) ℚ :=
  linearBase s x + loraDelta s x block_id

/- ## The router (`class Gate`). -/

/-- The preset override mode of `Gate.set_target` (`'hard'` / `'soft'`). -/
inductive SetMode where
  | hard
  | soft
deriving DecidableEq

/-- Insert an indexed score into a list sorted by descending score (helper
for the embedded `torch.topk`). -/
def insertDesc (p : ℕ × ℚ) : List (ℕ × ℚ) → List (ℕ × ℚ)
  | [] => [p]
  | q :: qs => if q.2 ≤ p.2 then p :: q :: qs else q :: insertDesc p qs

/-- Indexed scores sorted by descending score. -/
def sortDesc (l : List (ℕ × ℚ)) : List (ℕ × ℚ) := l.foldr insertDesc []

/-- Models `torch.topk(row, k)`: the `k` largest scores of a row with their
indices (tie order unspecified in the source and immaterial to the claims). -/
def topkPairs (k : ℕ) (row : List ℚ) : List (ℕ × ℚ) := (sortDesc row.enum).take k

/-- Dot product of two rationals lists (helper for the gate's linear map). -/
def dotQ (a b : List ℚ) : ℚ := (a.zip b).foldl (fun s p => s + p.1 * p.2) 0

/-- The gate's learned linear scorer `self.gate(inp)` for one example:
weight rows dotted with the input plus bias. -/
def linearQ (W : List (List ℚ)) (bias : List ℚ) (x : List ℚ) : List ℚ :=
  (W.zip bias).map (fun wb => dotQ wb.1 x + wb.2)

/-- `F.softmax` over one row, with `expf` standing for the (transcendental)
exponential, kept as a parameter of the embedding. -/
def softmaxQ (expf : ℚ → ℚ) (v : List ℚ) : List ℚ :=
  (v.map expf).map (fun e => e / (v.map expf).sum)

/-- The state of `class Gate` read by `Gate.forward`.
`preset_gate_top_k_idx` is the attribute installed by `Gate.set_target`
(meaningful only when `preset_target` is set, as in the source). -/
structure GateM where
  num_expert : ℕ
  top_k : ℕ
  W : List (List ℚ)
  bias : List ℚ
  preset_target : Bool
  target_set_mode : Option SetMode
  editing : Bool
  preset_gate_top_k_idx : List (List ℕ)
  loss : Option ℚ

/-- A raised Python error inside `Gate.forward`: reading the local variable
`target_top_k_idx` when no branch assigned it. -/
inductive GateError where
  | unboundLocalTarget
deriving DecidableEq

/-- Models `Gate.forward`: softmax scores, the hard-preset or learned top-k
selection, the soft-preset recording of the guidance target, and — when the
editing flag is set — the guided loss
`-log(gathered target probabilities).sum() / batch`, stored in `loss`.
`expf`/`logf` stand for the transcendental `exp`/`log`.  The local
`target_top_k_idx` is an `Option`; reading it unassigned is the
`UnboundLocalError` of the source. -/
def gateForward (g : GateM) (expf logf : ℚ → ℚ) (inp : List (List ℚ)) :
    Except GateError (List (List ℕ) × List (List ℚ) × GateM) :=
  let gate := inp.map (fun x => softmaxQ expf (linearQ g.W g.bias x))
  let hard := g.preset_target && (g.target_set_mode = some SetMode.hard)
  let gate_top_k_idx :=
    if hard then g.preset_gate_top_k_idx
    else gate.map (fun row => (topkPairs g.top_k row).map Prod.fst)
  let gate_top_k_val :=
    if hard then (gate.zip g.preset_gate_top_k_idx).map
      (fun r => r.2.map (fun i => r.1.getD i 0))
    else gate.map (fun row => (topkPairs g.top_k row).map Prod.snd)
  let target_top_k_idx : Option (List (List ℕ)) :=
    if g.preset_target && (g.target_set_mode = some SetMode.soft) then
      some g.preset_gate_top_k_idx
    else none
  if g.editing then
    match target_top_k_idx with
    | none => .error .unboundLocalTarget
    | some t =>
      let guided_loss :=
        -(((gate.zip t).map
            (fun r => (r.2.map (fun i => logf (r.1.getD i 0))).sum)).sum)
          / (gate.length : ℚ)
      .ok (gate_top_k_idx, gate_top_k_val, { g with loss := some guided_loss })
  else
    .ok (gate_top_k_idx, gate_top_k_val, g)

/-- Models `Gate.set_target`: record the preset index set (the source
converts a k-hot mask to indices with `torch.where`; `target` here is that
mask per example) and the mode, and raise the preset flag. -/
def gateSetTarget (g : GateM) (target : List (List Bool)) (set_mode : SetMode) :
    GateM :=
  { g with
    preset_target := true
    target_set_mode := some set_mode
    preset_gate_top_k_idx :=
      target.map (fun row => (row.enum.filter (fun p => p.2)).map Prod.fst) }

/- ## Concrete states used to instantiate the theorems. -/

/-- A store with one cluster (centre 0, radius 1, label `[1]`, one point),
`init_radius = 1`. -/
def exC1 : VecDB := ⟨1, [⟨0, 1, [1], [⟨0, 0⟩]⟩], 0, 0, []⟩

/-- A store with one two-point cluster for the lookup claim. -/
def exC2 : VecDB := ⟨1, [⟨0, 1, [1], [⟨0, 0⟩, ⟨1, 3⟩]⟩], 0, 0, []⟩

/-- A store whose first cluster has centre 1 and two points at distance 1
from it; a split at distance `1/2` evicts both points. -/
def exC3 : VecDB :=
  ⟨1, [⟨1, 1, [1], [⟨0, 0⟩, ⟨2, 0⟩]⟩, ⟨10, 1, [2], [⟨10, 1⟩]⟩], 0, 0, []⟩

/-- A one-cluster store for the `update_cluster` claim. -/
def exC4 : VecDB := ⟨1, [⟨0, 1, [1], [⟨0, 0⟩]⟩], 0, 0, []⟩

/-- A memory-layer state on a non-empty well-formed store, first
micro-batch. -/
def exC7 : GraceState := ⟨⟨1, [⟨0, 1, [1], [⟨0, 0⟩]⟩], 0, 0, []⟩, 5, [[1]], some 0, []⟩

/-- A one-cluster store for the non-emptiness claim. -/
def exC8 : VecDB := ⟨1, [⟨0, 1, [1], [⟨0, 0⟩]⟩], 0, 0, []⟩

/-- An adapter layer with `r = 1`, adapter installed, unmerged. -/
def exLin6 : LoraLinear 1 1 1 := ⟨0, fun _ => 0, ⟨0⟩, ⟨0⟩, 1, 1, 1, true, false⟩

/-- A gate in editing mode with a soft preset target installed. -/
def exGate9 : GateM := ⟨2, 1, [[1], [1]], [0, 0], true, some .soft, true, [[0]], none⟩

/-- A gate in editing mode with no preset target installed. -/
def exGate10 : GateM := ⟨2, 1, [[1], [1]], [0, 0], false, none, true, [], none⟩

/- ## Helper lemmas on the list combinators of the embedding. -/

theorem foldl_min_le_init (xs : List ℚ) (a : ℚ) : xs.foldl min a ≤ a := by
  induction xs generalizing a with
  | nil => exact le_rfl
  | cons y ys ih => exact le_trans (ih (min a y)) (min_le_left a y)

theorem foldl_min_le_mem (xs : List ℚ) (a x : ℚ) (hx : x ∈ xs) :
    xs.foldl min a ≤ x := by
  induction xs generalizing a with
  | nil => cases hx
  | cons y ys ih =>
    rcases List.mem_cons.mp hx with h | h
    · subst h
      exact le_trans (foldl_min_le_init ys (min a x)) (min_le_right a x)
    · exact ih (min a y) h

theorem foldl_min_choice (xs : List ℚ) (a : ℚ) :
    xs.foldl min a = a ∨ xs.foldl min a ∈ xs := by
  induction xs generalizing a with
  | nil => exact Or.inl rfl
  | cons y ys ih =>
    rcases ih (min a y) with h | h
    · rcases min_cases a y with ⟨hm, _⟩ | ⟨hm, _⟩
      · exact Or.inl (by rw [List.foldl_cons, h, hm])
      · exact Or.inr (by rw [List.foldl_cons, h, hm]; exact List.mem_cons_self y ys)
    · exact Or.inr (List.mem_cons_of_mem y h)

theorem listMin_le_mem {l : List ℚ} {x : ℚ} (hx : x ∈ l) : listMin l ≤ x := by
  cases l with
  | nil => cases hx
  | cons y ys =>
    rcases List.mem_cons.mp hx with h | h
    · subst h; exact foldl_min_le_init ys x
    · exact foldl_min_le_mem ys y x h

theorem listMin_mem {l : List ℚ} (h : l ≠ []) : listMin l ∈ l := by
  cases l with
  | nil => exact absurd rfl h
  | cons y ys =>
    rcases foldl_min_choice ys y with h2 | h2
    · rw [listMin, h2]; exact List.mem_cons_self y ys
    · exact List.mem_cons_of_mem y h2

theorem le_foldl_max_init (xs : List ℚ) (a : ℚ) : a ≤ xs.foldl max a := by
  induction xs generalizing a with
  | nil => exact le_rfl
  | cons y ys ih => exact le_trans (le_max_left a y) (ih (max a y))

theorem mem_le_foldl_max (xs : List ℚ) (a x : ℚ) (hx : x ∈ xs) :
    x ≤ xs.foldl max a := by
  induction xs generalizing a with
  | nil => cases hx
  | cons y ys ih =>
    rcases List.mem_cons.mp hx with h | h
    · subst h
      exact le_trans (le_max_right a x) (le_foldl_max_init ys (max a x))
    · exact ih (max a y) h

theorem mem_le_listMax {l : List ℚ} {x : ℚ} (hx : x ∈ l) : x ≤ listMax l := by
  cases l with
  | nil => cases hx
  | cons y ys =>
    rcases List.mem_cons.mp hx with h | h
    · subst h; exact le_foldl_max_init ys x
    · exact mem_le_foldl_max ys y x h

theorem argminFirst_lt_length {l : List ℚ} (h : l ≠ []) :
    argminFirst l < l.length :=
  List.findIdx_lt_length_of_exists
    ⟨listMin l, listMin_mem h, beq_self_eq_true (listMin l)⟩

theorem getElem_argminFirst {l : List ℚ} (h : argminFirst l < l.length) :
    l[argminFirst l] = listMin l := by
  have := @List.findIdx_getElem _ (fun x => x == listMin l) l h
  exact eq_of_beq this

theorem length_filterMap_all_isSome {α β : Type} (f : α → Option β)
    (l : List α) (h : ∀ x ∈ l, (f x).isSome) :
    (l.filterMap f).length = l.length := by
  induction l with
  | nil => rfl
  | cons y ys ih =>
    have hy := h y (List.mem_cons_self y ys)
    rcases Option.isSome_iff_exists.mp hy with ⟨b, hb⟩
    rw [List.filterMap_cons_some hb, List.length_cons, List.length_cons,
      ih (fun x hx => h x (List.mem_cons_of_mem y hx))]

theorem length_filter_add_length_filter_not {α : Type} (l : List α)
    (p : α → Bool) :
    (l.filter p).length + (l.filter (fun x => !(p x))).length = l.length := by
  induction l with
  | nil => rfl
  | cons y ys ih =>
    cases hy : p y <;> simp [List.filter_cons, hy] <;> omega

theorem sum_map_neg {α : Type} (l : List α) (f : α → ℚ) :
    (l.map (fun x => -(f x))).sum = -((l.map f).sum) := by
  induction l with
  | nil => simp
  | cons y ys ih => simp [ih]; ring

/- ## Claim theorems. -/

theorem getElem?_getD {l : List Cluster} {j : ℕ} (hj : j < l.length) :
    l[j]? = some (l.getD j dCl) := by
  rw [List.getElem?_eq_getElem hj, List.getD_eq_getElem _ _ hj]

/-- Claim C1: in the training-time update step for a non-empty store (first
micro-batch), each example takes exactly one of three actions, decided in
this order: distance beyond the matched radius plus `init_radius` creates a
new cluster regardless of label; otherwise a label match appends the example
to the matched cluster via `update_cluster` valued with the current block
counter; otherwise a new cluster is created and
`split_cluster_radii_in_half` is forced on the matched cluster. -/
theorem claim_C1 (db : VecDB) (lbl : List ℤ) (bid : ℤ) (q d : ℚ) (j : ℕ)
    (hj : j < db.table.length) :
    (d > (db.table.getD j dCl).radius + db.init_radius →
      graceUpdateStep lbl bid db q d j = db.add_cluster q bid lbl ∧
      (db.add_cluster q bid lbl).table.length = db.table.length + 1) ∧
    (¬ d > (db.table.getD j dCl).radius + db.init_radius →
      VecDB.label_match lbl (db.table.getD j dCl).key_label = true →
      graceUpdateStep lbl bid db q d j = db.update_cluster j q bid ∧
      ((db.update_cluster j q bid).table.getD j dCl).points
        = (db.table.getD j dCl).points ++ [⟨q, bid⟩]) ∧
    (¬ d > (db.table.getD j dCl).radius + db.init_radius →
      VecDB.label_match lbl (db.table.getD j dCl).key_label = false →
      graceUpdateStep lbl bid db q d j
        = (db.add_cluster q bid lbl).split_cluster_radii_in_half j d) := by
  have hsome := getElem?_getD hj
  refine ⟨fun hd => ⟨?_, ?_⟩, fun hd hm => ⟨?_, ?_⟩, fun hd hm => ?_⟩
  · simp only [graceUpdateStep, hsome]
    rw [if_pos hd]
  · simp [VecDB.add_cluster]
  · simp only [graceUpdateStep, hsome]
    rw [if_neg hd, if_pos hm]
  · simp only [VecDB.update_cluster, hsome]
    have hj2 : j < (db.table.set j
        (updatedCluster (db.table.getD j dCl) q bid db.init_radius)).length := by
      rw [List.length_set]; exact hj
    show ((db.table.set j (updatedCluster (db.table.getD j dCl) q bid
      db.init_radius)).getD j dCl).points = _
    rw [List.getD_eq_getElem _ _ hj2, List.getElem_set_self]
    rfl
  · simp only [graceUpdateStep, hsome]
    rw [if_neg hd, if_neg (by rw [hm]; exact Bool.false_ne_true)]

theorem claim_C1_witness :
    graceUpdateStep [2] 7 exC1 5 3 0 = exC1.add_cluster 5 7 [2] :=
  ((claim_C1 exC1 [2] 7 5 3 0 (by decide)).1
    (by with_unfolding_all decide)).1

/-- Claim C4: after `update_cluster` on an existing cluster, the centre is
the arithmetic mean of all member keys (including the appended one), the
radius is the maximum of the farthest member distance to the new centre and
`init_radius`, every member is within the recomputed radius, and the radius
never falls below `init_radius` through this path. -/
theorem claim_C4 (db : VecDB) (i : ℕ) (k : ℚ) (v : ℤ)
    (hi : i < db.table.length) :
    ((db.update_cluster i k v).table.getD i dCl).cluster_center
      = (((db.table.getD i dCl).points ++ [(⟨k, v⟩ : MemPoint)]).map MemPoint.key).sum
        / ((((db.table.getD i dCl).points ++ [(⟨k, v⟩ : MemPoint)]).map MemPoint.key).length : ℚ) ∧
    ((db.update_cluster i k v).table.getD i dCl).radius
      = max (listMax ((((db.table.getD i dCl).points ++ [(⟨k, v⟩ : MemPoint)]).map MemPoint.key).map
          (fun x => euc x (((db.update_cluster i k v).table.getD i dCl).cluster_center))))
          db.init_radius ∧
    (∀ p ∈ ((db.update_cluster i k v).table.getD i dCl).points,
      euc p.key (((db.update_cluster i k v).table.getD i dCl).cluster_center)
        ≤ ((db.update_cluster i k v).table.getD i dCl).radius) ∧
    db.init_radius ≤ ((db.update_cluster i k v).table.getD i dCl).radius := by
  have hsome := getElem?_getD hi
  have hred : (db.update_cluster i k v).table.getD i dCl
      = updatedCluster (db.table.getD i dCl) k v db.init_radius := by
    simp only [VecDB.update_cluster, hsome]
    have hi2 : i < (db.table.set i
        (updatedCluster (db.table.getD i dCl) k v db.init_radius)).length := by
      rw [List.length_set]; exact hi
    show (db.table.set i (updatedCluster (db.table.getD i dCl) k v
      db.init_radius)).getD i dCl = _
    rw [List.getD_eq_getElem _ _ hi2, List.getElem_set_self]
  rw [hred]
  refine ⟨rfl, rfl, fun p hp => ?_, le_max_right _ _⟩
  have hp2 : p ∈ (db.table.getD i dCl).points ++ [(⟨k, v⟩ : MemPoint)] := hp
  have hk : p.key ∈ ((db.table.getD i dCl).points ++ [(⟨k, v⟩ : MemPoint)]).map
      MemPoint.key := List.mem_map_of_mem MemPoint.key hp2
  have hd : euc p.key ((updatedCluster (db.table.getD i dCl) k v
        db.init_radius).cluster_center)
      ∈ (((db.table.getD i dCl).points ++ [(⟨k, v⟩ : MemPoint)]).map
          MemPoint.key).map
        (fun x => euc x ((updatedCluster (db.table.getD i dCl) k v
          db.init_radius).cluster_center)) :=
    List.mem_map_of_mem _ hk
  exact le_trans (mem_le_listMax hd) (le_max_left _ _)

theorem claim_C4_witness :
    exC4.init_radius ≤ ((exC4.update_cluster 0 3 9).table.getD 0 dCl).radius :=
  (claim_C4 exC4 0 3 9 (by decide)).2.2.2



theorem setRadius_points_ne_nil {t : List Cluster} {i : ℕ} {r : ℚ}
    (h : ∀ c ∈ t, c.points ≠ []) :
    ∀ c2 ∈ setRadius t i r, c2.points ≠ [] := by
  intro c2 hc2
  rw [setRadius] at hc2
  cases hi : t[i]? with
  | none => rw [hi] at hc2; exact h c2 hc2
  | some c =>
    rw [hi] at hc2
    rcases List.mem_or_eq_of_mem_set hc2 with h2 | h2
    · exact h c2 h2
    · subst h2
      exact h c (List.getElem?_mem hi)

/-- Claim C8: every cluster in the store always contains at least one point:
`add_cluster` seeds a cluster with exactly one point, `update_cluster` only
appends, and when the re-filtering in `split_cluster_radii_in_half` removes
all points a sentinel `(center, NO_LORA)` point is inserted. -/
theorem claim_C8 (db : VecDB) (hwf : ∀ c ∈ db.table, c.points ≠ []) :
    (∀ k v lbl, ((db.add_cluster k v lbl).table.getLastD dCl).points = [⟨k, v⟩]) ∧
    (∀ k v lbl, ∀ c ∈ (db.add_cluster k v lbl).table, c.points ≠ []) ∧
    (∀ i k v, ∀ c ∈ (db.update_cluster i k v).table, c.points ≠ []) ∧
    (∀ j sdist, ∀ c ∈ (db.split_cluster_radii_in_half j sdist).table,
      c.points ≠ []) := by
  refine ⟨fun k v lbl => ?_, fun k v lbl c hc => ?_, fun i k v c hc => ?_,
    fun j sdist c hc => ?_⟩
  · exact congrArg Cluster.points (List.getLastD_concat _ _ _)
  · rcases List.mem_append.mp hc with h | h
    · exact hwf c h
    · rw [List.mem_singleton.mp h]; simp
  · rw [VecDB.update_cluster] at hc
    cases hi : db.table[i]? with
    | none => rw [hi] at hc; exact hwf c hc
    | some c0 =>
      rw [hi] at hc
      rcases List.mem_or_eq_of_mem_set hc with h | h
      · exact hwf c h
      · subst h; simp [updatedCluster]
  · rw [VecDB.split_cluster_radii_in_half] at hc
    have hwf2 : ∀ c2 ∈ setRadius (setRadius db.table j
          (sdist / 2 - 1 / 100000)) (db.table.length - 1)
          (sdist / 2 + 1 / 100000), c2.points ≠ [] :=
      setRadius_points_ne_nil (setRadius_points_ne_nil hwf)
    cases ht : (setRadius (setRadius db.table j (sdist / 2 - 1 / 100000))
        (db.table.length - 1) (sdist / 2 + 1 / 100000))[j]? with
    | none => rw [ht] at hc; exact hwf2 c hc
    | some c0 =>
      rw [ht] at hc
      simp only at hc
      rcases List.mem_or_eq_of_mem_set hc with h | h
      · exact hwf2 c h
      · subst h
        simp only
        cases hk : (c0.points.filter
            (fun p => decide (euc p.key c0.cluster_center ≤ c0.radius))).isEmpty
        · simp only [hk, Bool.false_eq_true, if_false]
          intro hnil
          rw [hnil] at hk
          exact absurd hk (by simp)
        · simp [hk]

theorem claim_C8_witness :
    ((exC8.add_cluster 5 7 [1]).table.getLastD dCl).points = [⟨5, 7⟩] :=
  (claim_C8 exC8 (by with_unfolding_all decide)).1 5 7 [1]

theorem searchClusterEntry_of_not_gt {db : VecDB} {q d : ℚ} {j : ℕ}
    (hj : j < db.table.length) (hp : (db.table.getD j dCl).points ≠ [])
    (hd : ¬ d > (db.table.getD j dCl).radius) :
    searchClusterEntry db q d j
      = some (((db.table.getD j dCl).points.getD
          (argminFirst ((db.table.getD j dCl).points.map
            (fun x => euc x.key q))) ⟨0, NO_LORA⟩).value) := by
  have hsome := getElem?_getD hj
  simp only [searchClusterEntry, hsome]
  rw [if_neg hd]
  cases hcp : (db.table.getD j dCl).points with
  | nil => exact absurd hcp hp
  | cons a as => simp only [hcp]

/-- Claim C2: for every query handed to `search_cluster` with its minimum
distance and nearest-cluster index, a distance beyond the nearest cluster's
radius yields `NO_EDIT`; otherwise the result is the value of the closest
member point (by Euclidean distance) of that nearest cluster only. -/
theorem claim_C2 (db : VecDB) (q d : ℚ) (j : ℕ) (hj : j < db.table.length)
    (hp : (db.table.getD j dCl).points ≠ []) :
    (d > (db.table.getD j dCl).radius →
      searchClusterEntry db q d j = some NO_LORA) ∧
    (¬ d > (db.table.getD j dCl).radius →
      ∃ p ∈ (db.table.getD j dCl).points,
        searchClusterEntry db q d j = some p.value ∧
        ∀ p2 ∈ (db.table.getD j dCl).points, euc p.key q ≤ euc p2.key q) := by
  have hsome := getElem?_getD hj
  constructor
  · intro hd
    simp only [searchClusterEntry, hsome]
    rw [if_pos hd]
  · intro hd
    have hlen : ((db.table.getD j dCl).points.map
        (fun x => euc x.key q)).length = (db.table.getD j dCl).points.length :=
      List.length_map _ _
    have hdne : (db.table.getD j dCl).points.map (fun x => euc x.key q) ≠ [] := by
      intro h0
      apply hp
      cases hcp : (db.table.getD j dCl).points with
      | nil => rfl
      | cons a as => rw [hcp] at h0; cases h0
    have hidx : argminFirst ((db.table.getD j dCl).points.map
        (fun x => euc x.key q)) < ((db.table.getD j dCl).points.map
        (fun x => euc x.key q)).length := argminFirst_lt_length hdne
    have hidx2 : argminFirst ((db.table.getD j dCl).points.map
        (fun x => euc x.key q)) < (db.table.getD j dCl).points.length := by
      rw [← hlen]; exact hidx
    refine ⟨(db.table.getD j dCl).points.getD
      (argminFirst ((db.table.getD j dCl).points.map
        (fun x => euc x.key q))) ⟨0, NO_LORA⟩, ?_, ?_, ?_⟩
    · rw [List.getD_eq_getElem _ _ hidx2]
      exact List.getElem_mem hidx2
    · exact searchClusterEntry_of_not_gt hj hp hd
    · intro p2 hp2
      rw [List.getD_eq_getElem _ _ hidx2]
      have hval : euc ((db.table.getD j dCl).points[argminFirst
          ((db.table.getD j dCl).points.map (fun x => euc x.key q))]).key q
          = listMin ((db.table.getD j dCl).points.map (fun x => euc x.key q)) := by
        rw [← getElem_argminFirst hidx]
        rw [List.getElem_map]
      rw [hval]
      exact listMin_le_mem (List.mem_map_of_mem _ hp2)

theorem claim_C2_witness :
    searchClusterEntry exC2 0 5 0 = some NO_LORA :=
  (claim_C2 exC2 0 5 0 (by with_unfolding_all decide)
    (by with_unfolding_all decide)).1 (by with_unfolding_all decide)

theorem length_setRadius (t : List Cluster) (i : ℕ) (r : ℚ) :
    (setRadius t i r).length = t.length := by
  rw [setRadius]
  cases h : t[i]? <;> simp [List.length_set]

theorem getD_setRadius_self {t : List Cluster} {i : ℕ} (r : ℚ)
    (hi : i < t.length) :
    (setRadius t i r).getD i dCl = { t.getD i dCl with radius := r } := by
  rw [setRadius, getElem?_getD hi, List.getD_eq_getElem?_getD,
    List.getElem?_set_self hi]
  rfl

theorem getD_setRadius_ne {t : List Cluster} {i j : ℕ} (r : ℚ) (hne : i ≠ j) :
    (setRadius t i r).getD j dCl = t.getD j dCl := by
  rw [setRadius]
  cases h : t[i]? with
  | none => rfl
  | some c =>
    rw [List.getD_eq_getElem?_getD, List.getElem?_set_ne hne,
      ← List.getD_eq_getElem?_getD]

theorem getD_set_self {t : List Cluster} {i : ℕ} {c : Cluster}
    (hi : i < t.length) : (t.set i c).getD i dCl = c := by
  rw [List.getD_eq_getElem?_getD, List.getElem?_set_self hi]
  rfl

theorem getD_set_ne {t : List Cluster} {i k : ℕ} {c : Cluster} (h : i ≠ k) :
    (t.set i c).getD k dCl = t.getD k dCl := by
  rw [List.getD_eq_getElem?_getD, List.getElem?_set_ne h,
    ← List.getD_eq_getElem?_getD]

/-- Claim C3 (amended): after `split_cluster_radii_in_half(j, d)` on an
in-range, non-last cluster, the original cluster's radius is `d/2 - 1e-5`,
the most recently appended cluster's radius is `d/2 + 1e-5`, the radii sum
exactly to `d`, the original centre is unchanged, the kept points are
exactly the original points within the new radius (with the sentinel
`(center, NO_LORA)` point substituted when none remain), every excluded
point is appended to the forget-list, `conflict_num` grows by one, and
`forget_num` grows by the number of excluded points EXCEPT when every point
is excluded, in which case the sentinel insertion makes it grow by one
fewer (the count is `points - kept2` with the sentinel counted as kept). -/
theorem claim_C3_amended (db : VecDB) (j : ℕ) (d : ℚ)
    (hj : j + 1 < db.table.length) :
    ((db.split_cluster_radii_in_half j d).table.getD j dCl).radius
      = d / 2 - 1 / 100000 ∧
    ((db.split_cluster_radii_in_half j d).table.getD
        (db.table.length - 1) dCl).radius = d / 2 + 1 / 100000 ∧
    (d / 2 - 1 / 100000) + (d / 2 + 1 / 100000) = d ∧
    ((db.split_cluster_radii_in_half j d).table.getD j dCl).cluster_center
      = (db.table.getD j dCl).cluster_center ∧
    ((db.split_cluster_radii_in_half j d).table.getD j dCl).points
      = (if ((db.table.getD j dCl).points.filter (fun p =>
            decide (euc p.key (db.table.getD j dCl).cluster_center
              ≤ d / 2 - 1 / 100000))).isEmpty
         then [⟨(db.table.getD j dCl).cluster_center, NO_LORA⟩]
         else (db.table.getD j dCl).points.filter (fun p =>
            decide (euc p.key (db.table.getD j dCl).cluster_center
              ≤ d / 2 - 1 / 100000))) ∧
    (db.split_cluster_radii_in_half j d).forget_keys
      = db.forget_keys ++ ((db.table.getD j dCl).points.filter (fun p =>
          !decide (euc p.key (db.table.getD j dCl).cluster_center
            ≤ d / 2 - 1 / 100000))).map MemPoint.key ∧
    (db.split_cluster_radii_in_half j d).forget_num
      = db.forget_num + (if ((db.table.getD j dCl).points.filter (fun p =>
            decide (euc p.key (db.table.getD j dCl).cluster_center
              ≤ d / 2 - 1 / 100000))).isEmpty
          then (db.table.getD j dCl).points.length - 1
          else ((db.table.getD j dCl).points.filter (fun p =>
            !decide (euc p.key (db.table.getD j dCl).cluster_center
              ≤ d / 2 - 1 / 100000))).length) ∧
    (db.split_cluster_radii_in_half j d).conflict_num = db.conflict_num + 1 := by
  have hjlt : j < db.table.length := by omega
  have hne : j ≠ db.table.length - 1 := by omega
  have hlast : db.table.length - 1 < db.table.length := by omega
  have ht1len : (setRadius db.table j (d / 2 - 1 / 100000)).length
      = db.table.length := length_setRadius _ _ _
  have ht2j : (setRadius (setRadius db.table j (d / 2 - 1 / 100000))
      (db.table.length - 1) (d / 2 + 1 / 100000)).getD j dCl
      = { db.table.getD j dCl with radius := d / 2 - 1 / 100000 } := by
    rw [getD_setRadius_ne _ (fun h => hne h.symm),
      getD_setRadius_self _ hjlt]
  have ht2len : (setRadius (setRadius db.table j (d / 2 - 1 / 100000))
      (db.table.length - 1) (d / 2 + 1 / 100000)).length = db.table.length := by
    rw [length_setRadius, ht1len]
  have hjlt2 : j < (setRadius (setRadius db.table j (d / 2 - 1 / 100000))
      (db.table.length - 1) (d / 2 + 1 / 100000)).length := by
    rw [ht2len]; exact hjlt
  have ht2some : (setRadius (setRadius db.table j (d / 2 - 1 / 100000))
      (db.table.length - 1) (d / 2 + 1 / 100000))[j]?
      = some { db.table.getD j dCl with radius := d / 2 - 1 / 100000 } := by
    rw [getElem?_getD hjlt2, ht2j]
  have ht2last : (setRadius (setRadius db.table j (d / 2 - 1 / 100000))
      (db.table.length - 1) (d / 2 + 1 / 100000)).getD
      (db.table.length - 1) dCl
      = { db.table.getD (db.table.length - 1) dCl
          with radius := d / 2 + 1 / 100000 } := by
    have hlast1 : db.table.length - 1
        < (setRadius db.table j (d / 2 - 1 / 100000)).length := by
      rw [ht1len]; exact hlast
    rw [getD_setRadius_self _ hlast1, getD_setRadius_ne _ hne]
  have hsplit : db.split_cluster_radii_in_half j d
      = { db with
          table := (setRadius (setRadius db.table j (d / 2 - 1 / 100000))
            (db.table.length - 1) (d / 2 + 1 / 100000)).set j
            { db.table.getD j dCl with
              radius := d / 2 - 1 / 100000
              points := (if ((db.table.getD j dCl).points.filter (fun p =>
                  decide (euc p.key (db.table.getD j dCl).cluster_center
                    ≤ d / 2 - 1 / 100000))).isEmpty
                then [⟨(db.table.getD j dCl).cluster_center, NO_LORA⟩]
                else (db.table.getD j dCl).points.filter (fun p =>
                  decide (euc p.key (db.table.getD j dCl).cluster_center
                    ≤ d / 2 - 1 / 100000))) }
          forget_keys := db.forget_keys
            ++ ((db.table.getD j dCl).points.filter (fun p =>
                !decide (euc p.key (db.table.getD j dCl).cluster_center
                  ≤ d / 2 - 1 / 100000))).map MemPoint.key
          forget_num := db.forget_num + ((db.table.getD j dCl).points.length
            - (if ((db.table.getD j dCl).points.filter (fun p =>
                  decide (euc p.key (db.table.getD j dCl).cluster_center
                    ≤ d / 2 - 1 / 100000))).isEmpty
               then [⟨(db.table.getD j dCl).cluster_center, NO_LORA⟩]
               else (db.table.getD j dCl).points.filter (fun p =>
                  decide (euc p.key (db.table.getD j dCl).cluster_center
                    ≤ d / 2 - 1 / 100000))).length)
          conflict_num := db.conflict_num + 1 } := by
    simp only [VecDB.split_cluster_radii_in_half, ht2some]
  have hjset : j < (setRadius (setRadius db.table j (d / 2 - 1 / 100000))
      (db.table.length - 1) (d / 2 + 1 / 100000)).length := hjlt2
  refine ⟨?_, ?_, by ring, ?_, ?_, ?_, ?_, ?_⟩
  · simp only [hsplit, getD_set_self hjset]
  · simp only [hsplit, getD_set_ne hne, ht2last]
  · simp only [hsplit, getD_set_self hjset]
  · simp only [hsplit, getD_set_self hjset]
  · simp only [hsplit]
  · simp only [hsplit]
    cases hk : ((db.table.getD j dCl).points.filter (fun p =>
        decide (euc p.key (db.table.getD j dCl).cluster_center
          ≤ d / 2 - 1 / 100000))).isEmpty
    · simp only [hk, Bool.false_eq_true, if_false]
      have hpart := length_filter_add_length_filter_not
        (db.table.getD j dCl).points (fun p =>
          decide (euc p.key (db.table.getD j dCl).cluster_center
            ≤ d / 2 - 1 / 100000))
      omega
    · simp only [hk, if_true, List.length_singleton]
  · simp only [hsplit]

/-- Claim C3 counterexample: on `exC3`, splitting cluster 0 at distance
`1/2` excludes both of its points (2 excluded), yet `forget_num` grows by
only 1, because the sentinel point inserted into the emptied cluster is
counted as kept; so "forget_num increases by the number of excluded
points" fails as stated. -/
theorem claim_C3_counterexample :
    ((exC3.table.getD 0 dCl).points.filter (fun p =>
      !decide (euc p.key (exC3.table.getD 0 dCl).cluster_center
        ≤ (1 / 2 : ℚ) / 2 - 1 / 100000))).length = 2 ∧
    (exC3.split_cluster_radii_in_half 0 (1 / 2)).forget_num
      = exC3.forget_num + 1 ∧
    ¬ (exC3.split_cluster_radii_in_half 0 (1 / 2)).forget_num
      = exC3.forget_num + 2 := by
  with_unfolding_all decide

theorem claim_C3_witness :
    (exC3.split_cluster_radii_in_half 0 (1 / 2)).conflict_num
      = exC3.conflict_num + 1 :=
  (claim_C3_amended exC3 0 (1 / 2) (by with_unfolding_all decide)).2.2.2.2.2.2.2

/-- Claim C5: an example whose lookup result is `NO_EDIT` receives a
zero-valued low-rank correction at a consuming adapter layer: the blockwise
gather substitutes an all-zero `(num_rank_per_block, width)` block, the
adapter's additive contribution is exactly zero, and the layer output equals
the base linear output. -/
theorem claim_C5 {nin nout R L : ℕ} (s : LoraLinear nin nout R)
    (x : Matrix (Fin L) (Fin nin) ℚ) :
    dynamic_forward_block R nout s.num_rank_per_block s.dyn_scale
      s.lora_B.data NO_LORA = 0 ∧
    loraDelta s x NO_LORA = 0 ∧
    linearForwardExample s x NO_LORA = linearBase s x := by
  have hzB : dynamic_forward_block R nout s.num_rank_per_block s.dyn_scale
      s.lora_B.data NO_LORA = 0 := by
    rw [dynamic_forward_block, if_pos rfl, smul_zero]
  have hzA : dynamic_forward_block R nin s.num_rank_per_block s.dyn_scale
      s.lora_A.data.transpose NO_LORA = 0 := by
    rw [dynamic_forward_block, if_pos rfl, smul_zero]
  have hd : loraDelta s x NO_LORA = 0 := by
    rw [loraDelta, hzA, hzB, Matrix.transpose_zero, Matrix.mul_zero, smul_zero]
  exact ⟨hzB, hd, by rw [linearForwardExample, hd, add_zero]⟩

/-- Claim C6 (code bug): the claimed merge/unmerge inverse law cannot
execute: with `r > 0` in the unmerged state, `Linear.merge` evaluates
`lora_B[...].weight @ lora_A[...].weight`, but both dict entries are bare
`nn.Parameter`s (created by `LoraLayer.update_layer` in an
`nn.ParameterDict`), which have no `weight` attribute, so the call raises
`AttributeError` instead of updating the weight; the already-merged /
already-unmerged warning guards and the `r == 0` no-op do behave as
claimed, since they return before the faulty expression. -/
theorem claim_C6_bug :
    LoraLinear.merge exLin6 = .error .attributeError ∧
    LoraLinear.unmerge { exLin6 with merged := true } = .error .attributeError ∧
    LoraLinear.merge { exLin6 with merged := true }
      = .ok ({ exLin6 with merged := true }, true) ∧
    LoraLinear.unmerge exLin6 = .ok (exLin6, true) :=
  ⟨rfl, rfl, rfl, rfl⟩

/-- Claim C9: with the editing flag set (and the soft preset installed, the
only state in which the loss is computed, see C10), the loss stored by
`Gate.forward` is the aggregate of `-log` of the softmax probabilities at
the caller-provided target indices, divided by the batch size. -/
theorem claim_C9 (g : GateM) (expf logf : ℚ → ℚ) (inp : List (List ℚ))
    (hedit : g.editing = true) (hp : g.preset_target = true)
    (hm : g.target_set_mode = some SetMode.soft) :
    Except.map (fun r => r.2.2.loss) (gateForward g expf logf inp)
      = .ok (some ((((inp.map (fun x => softmaxQ expf (linearQ g.W g.bias x))).zip
          g.preset_gate_top_k_idx).map (fun r =>
            (r.2.map (fun i => -(logf (r.1.getD i 0)))).sum)).sum
          / ((inp.map (fun x => softmaxQ expf (linearQ g.W g.bias x))).length : ℚ))) := by
  have hcond : (g.preset_target
      && decide (g.target_set_mode = some SetMode.soft)) = true := by
    rw [hp, hm]; rfl
  have hhard : (g.preset_target
      && decide (g.target_set_mode = some SetMode.hard)) = false := by
    rw [hp, hm]; rfl
  simp only [gateForward, hcond, hhard, hedit, Bool.false_eq_true, if_false,
    if_true, Except.map]
  simp only [sum_map_neg]

/-- Claim C10: `Gate.forward` with the editing flag set reads the local
`target_top_k_idx`, which is assigned only under a soft preset; editing with
a hard preset mode, or with no preset installed, fails with an
unbound-local error instead of returning — a prior
`set_target(target, 'soft')` is an unstated precondition of editing mode. -/
theorem claim_C10 (g : GateM) (expf logf : ℚ → ℚ) (inp : List (List ℚ))
    (hedit : g.editing = true)
    (h : g.preset_target = false ∨ ¬ g.target_set_mode = some SetMode.soft) :
    gateForward g expf logf inp = .error .unboundLocalTarget := by
  have hcond : (g.preset_target
      && decide (g.target_set_mode = some SetMode.soft)) = false := by
    rcases h with h | h
    · rw [h]; rfl
    · simp [h]
  simp only [gateForward, hcond, hedit, Bool.false_eq_true, if_false, if_true]

theorem claim_C9_witness :
    Except.map (fun r => r.2.2.loss) (gateForward exGate9 id id [[1]])
      = .ok (some (((([[1]].map (fun x => softmaxQ id (linearQ exGate9.W
          exGate9.bias x))).zip exGate9.preset_gate_top_k_idx).map (fun r =>
            (r.2.map (fun i => -(id (r.1.getD i 0)))).sum)).sum
          / (([[(1 : ℚ)]].map (fun x => softmaxQ id (linearQ exGate9.W
              exGate9.bias x))).length : ℚ))) :=
  claim_C9 exGate9 id id [[1]] rfl rfl rfl

theorem claim_C10_witness :
    gateForward exGate10 id id [[1]] = .error .unboundLocalTarget :=
  claim_C10 exGate10 id id [[1]] rfl (Or.inl rfl)

theorem search_cluster_length (db : VecDB) (bq : List ℚ)
    (hwf : ∀ c ∈ db.table, c.points ≠ []) (hne : db.table ≠ []) :
    (db.search_cluster bq (db.search_database bq).1
      (db.search_database bq).2).length = bq.length := by
  rw [VecDB.search_cluster]
  have hall : ∀ x ∈ bq.zip ((db.search_database bq).1.zip
      (db.search_database bq).2),
      (searchClusterEntry db x.1 x.2.1 x.2.2).isSome = true := by
    intro x hx
    have hx2 := (List.of_mem_zip hx).2
    have hx3 := (List.of_mem_zip hx2).2
    rw [VecDB.search_database] at hx3
    simp only at hx3
    rcases List.mem_map.mp hx3 with ⟨q, _, hqe⟩
    have htne : db.table.map (fun c => euc q c.cluster_center) ≠ [] := by
      intro h0
      apply hne
      cases hcc : db.table with
      | nil => rfl
      | cons a as => rw [hcc] at h0; cases h0
    have hlt : x.2.2 < db.table.length := by
      rw [← hqe]
      have h2 := argminFirst_lt_length htne
      rwa [List.length_map] at h2
    have hsome := getElem?_getD hlt
    simp only [searchClusterEntry, hsome]
    by_cases hgt : x.2.1 > (db.table.getD x.2.2 dCl).radius
    · rw [if_pos hgt]; rfl
    · rw [if_neg hgt]
      have hmem : db.table.getD x.2.2 dCl ∈ db.table := by
        rw [List.getD_eq_getElem _ _ hlt]
        exact List.getElem_mem hlt
      have hpne := hwf _ hmem
      cases hcp : (db.table.getD x.2.2 dCl).points with
      | nil => exact absurd hcp hpne
      | cons a as => simp only [hcp]; rfl
  rw [length_filterMap_all_isSome _ _ hall, List.length_zip, List.length_zip]
  have hsd : (db.search_database bq).1.length = bq.length := by
    rw [VecDB.search_database]
    simp [List.length_map]
  have hnc : (db.search_database bq).2.length = bq.length := by
    rw [VecDB.search_database]
    simp [List.length_map]
  rw [hsd, hnc]
  simp [Nat.min_self]

/-- Claim C7: in each of the three modes of the memory layer's forward pass
— empty store, training update (first micro-batch), and inference lookup —
the published block-assignment list has length equal to the batch size,
including when `search_cluster` processes a degenerate (sentinel) cluster:
on a well-formed store no lookup iteration is skipped. -/
theorem claim_C7 (training : Bool) (st : GraceState) (batch_query : List ℚ)
    (hwf : ∀ c ∈ st.db.table, c.points ≠ [])
    (hmode : training = false ∨ st.db.table = [] ∨ st.batch_iter = some 0) :
    (graceForwardMapping training st batch_query).1.length
      = batch_query.length := by
  simp only [graceForwardMapping]
  by_cases he : st.db.table.isEmpty = true
  · rw [if_pos he]
    cases training with
    | false => simp [List.length_replicate]
    | true => simp [initKeyValue, List.length_map]
  · rw [if_neg he]
    have hne : st.db.table ≠ [] := fun h => he (List.isEmpty_iff.mpr h)
    cases training with
    | false =>
      simp only [if_pos rfl]
      exact search_cluster_length st.db batch_query hwf hne
    | true =>
      rcases hmode with h | h | h
      · cases h
      · exact absurd h hne
      · simp only [if_neg (show ¬(true = false) by decide), if_pos h,
          List.length_replicate]

theorem claim_C7_witness :
    (graceForwardMapping false exC7 [3, 4]).1.length = 2 :=
  claim_C7 false exC7 [3, 4] (by with_unfolding_all decide) (Or.inl rfl)

end Elder
